import Mathlib

/-!
Shallow embedding of the streamit-hls C-syntax emitter (`src/hlstarget/CBackend.cpp`)
and of the frontend IR lowerer (`src/frontend/expression_builder.cpp`), together with
theorems settling the specification claims about them.
-/

namespace CBackend

/-! Types as the C backend sees them (LLVM types restricted to what the backend
handles: void, iN, float, double, pointers, structs, arrays). -/

inductive CType where
  | void : CType
  | integer (width : Nat) : CType
  | floatT : CType
  | doubleT : CType
  | pointer (elem : CType) : CType
  | structT (fields : List CType) : CType
  | arrayT (numElements : Nat) (elem : CType) : CType

/-- Embeds `isEmptyType` (CBackend.cpp:55-63): a struct is empty when it has no
elements or all its elements are empty, an array is empty when it has zero
elements or an empty element type, `void` is empty, nothing else is. -/
def isEmptyType : CType → Bool
  | .void => true
  | .integer _ => false
  | .floatT => false
  | .doubleT => false
  | .pointer _ => false
  | .structT fields => isEmptyTypeList fields
  | .arrayT n elem => n == 0 || isEmptyType elem
where
  isEmptyTypeList : List CType → Bool
    | [] => true
    | t :: ts => isEmptyType t && isEmptyTypeList ts

/-! Instruction opcodes relevant to the backend's decisions. -/

inductive COpcode where
  | add | sub | mul | udiv | sdiv | urem | srem
  | shl | lshr | ashr | andOp | orOp | xorOp
  | fadd | fsub | fmul | fdiv | frem
  | icmp | fcmp
  | load | store | alloca | getelementptr
  | call | phi | select
  | br | ret | switchInst | unreachableInst
  | vaarg | insertelement | insertvalue | extractvalue
deriving DecidableEq, Repr

/-- Mirrors `isa<CmpInst>`: integer or floating-point compare. -/
def COpcode.isCmp : COpcode → Bool
  | .icmp => true
  | .fcmp => true
  | _ => false

/-- Mirrors `isa<TerminatorInst>` for the opcodes we model. -/
def COpcode.isTerminator : COpcode → Bool
  | .br => true
  | .ret => true
  | .switchInst => true
  | .unreachableInst => true
  | _ => false

/-- The facts about one instruction that `isInlinableInst`, `isDirectAlloca`
and `writeOperandInternal` consult: its opcode, its result type, the id of its
parent basic block, the id of the function's entry block, the parent-block ids
of its users (in use-list order, `user_back` first), and whether it is an
array alloca. -/
structure InstInfo where
  opcode : COpcode
  ty : CType
  parent : Nat
  entryBlock : Nat
  userParents : List Nat
  arrayAllocation : Bool

/-- Mirrors `Value::hasOneUse`. -/
def hasOneUse (I : InstInfo) : Bool := I.userParents.length == 1

/-- Embeds `CWriter::isDirectAlloca` (CBackend.cpp:103-117): a non-array
alloca sitting in the entry block. -/
def isDirectAlloca (I : InstInfo) : Bool :=
  I.opcode == .alloca && !I.arrayAllocation && I.parent == I.entryBlock

/-- Embeds `CWriter::isInlinableInst` (CBackend.cpp:85-101): compare
instructions are always inlined; otherwise the instruction must have a
non-empty result type, exactly one use, must not be a terminator, call, PHI,
load, va_arg, insertelement or insertvalue, and its single use must sit in
the same basic block. -/
def isInlinableInst (I : InstInfo) : Bool :=
  if I.opcode.isCmp then true
  else if isEmptyType I.ty || !hasOneUse I || I.opcode.isTerminator
          || I.opcode == .call || I.opcode == .phi || I.opcode == .load
          || I.opcode == .vaarg || I.opcode == .insertelement
          || I.opcode == .insertvalue then false
  else
    match I.userParents.head? with
    | some userParent => I.parent == userParent
    | none => false

/-- Embeds the inlining decision of `CWriter::writeOperandInternal`
(CBackend.cpp:1323-1341): an instruction operand is printed inline exactly
when `isInlinableInst` holds and it is not a direct alloca. -/
def writeOperandInlines (I : InstInfo) : Bool :=
  isInlinableInst I && !isDirectAlloca I

/-! Integer-width handling. -/

/-- Embeds `IntegerType::isPowerOf2ByteWidth` of the IR library, as the
backend relies on it: the bit width is more than 7 and a power of two
(`isPowerOf2_32(BitWidth)` is `w != 0 && (w & (w-1)) == 0`). -/
def isPowerOf2ByteWidth (w : Nat) : Bool :=
  decide (w > 7) && (w != 0) && (w &&& (w - 1) == 0)

/-- Embeds `IntegerType::getBitMask` of the IR library:
`~uint64_t(0UL) >> (64-getBitWidth())`, i.e. `2^w - 1` for `1 ≤ w ≤ 64`. -/
def getBitMask (w : Nat) : Nat := 2 ^ w - 1

/-- Embeds the bit-mask computation of `CWriter::visitStoreInst`
(CBackend.cpp:3674-3690) and `CWriter::writeInstComputationInline`
(CBackend.cpp:1298-1321): the mask variable is a C `unsigned` (32 bits), so
the `uint64_t` result of `getBitMask` is truncated modulo `2^32`; the mask is
zero (no masking) for power-of-two byte widths. -/
def storeBitMask (w : Nat) : Nat :=
  if !isPowerOf2ByteWidth w then getBitMask w % 2 ^ 32 else 0

/-- Embeds the store-value emission of `CWriter::visitStoreInst`: when the
mask is non-zero the operand text is wrapped as `((operand) & mask)`. -/
def visitStoreInstRHS (operand : String) (w : Nat) : String :=
  if storeBitMask w != 0 then
    "((" ++ operand ++ ") & " ++ toString (storeBitMask w) ++ ")"
  else operand

/-- Embeds the masking wrapper of `CWriter::writeInstComputationInline` for an
instruction whose result is an integer of width `w`: `((expr)&mask)` when the
width is not a power-of-two byte width. -/
def writeInstComputationInlineText (expr : String) (w : Nat) : String :=
  if storeBitMask w != 0 then
    "((" ++ expr ++ ")&" ++ toString (storeBitMask w) ++ ")"
  else expr

/-- Embeds the integer arm of `CWriter::printSimpleType`
(CBackend.cpp:314-349): width 1 prints `bool`; widths up to 8, 16, 32, 64
print the corresponding `intN_t`/`uintN_t`; widths above 64 hit
`assert(NumBits <= 64 && "Bit widths > 64 not implemented yet")`, modelled as
`none`. -/
def printSimpleTypeInt (w : Nat) (isSigned : Bool) : Option String :=
  if w == 1 then some "bool"
  else if w ≤ 8 then some (if isSigned then "int8_t" else "uint8_t")
  else if w ≤ 16 then some (if isSigned then "int16_t" else "uint16_t")
  else if w ≤ 32 then some (if isSigned then "int32_t" else "uint32_t")
  else if w ≤ 64 then some (if isSigned then "int64_t" else "uint64_t")
  else none

/-! Operand casts for binary operations (`opcodeNeedsCast`,
`writeOperandWithCast`, CBackend.cpp:1410-1469). -/

/-- Embeds `CWriter::opcodeNeedsCast`: returns `(shouldCast, castIsSigned)`.
Add, sub, mul, lshr, udiv, urem cast to unsigned; getelementptr, ashr, sdiv,
srem cast to signed; every other opcode gets no cast at all. -/
def opcodeNeedsCast : COpcode → Bool × Bool
  | .add => (true, false)
  | .sub => (true, false)
  | .mul => (true, false)
  | .lshr => (true, false)
  | .udiv => (true, false)
  | .urem => (true, false)
  | .getelementptr => (true, true)
  | .ashr => (true, true)
  | .sdiv => (true, true)
  | .srem => (true, true)
  | _ => (false, false)

/-- The integer binary operators the emitter's `visitBinaryOperator` handles
(its operator switch, CBackend.cpp:2816-2861, restricted to the integer
opcodes). -/
def integerBinaryOpcodes : List COpcode :=
  [.add, .sub, .mul, .udiv, .sdiv, .urem, .srem,
   .shl, .lshr, .ashr, .andOp, .orOp, .xorOp]

/-- Embeds `CWriter::writeOperandWithCast(Value*, unsigned Opcode)`
(CBackend.cpp:1448-1469): the emitted cast prefix, `some (signedness)` when a
`((type)...)` cast is wrapped around the operand, `none` otherwise. -/
def writeOperandWithCastSign (op : COpcode) : Option Bool :=
  let (shouldCast, castIsSigned) := opcodeNeedsCast op
  if shouldCast then some castIsSigned else none

/-- Integer comparison predicates (`ICmpInst::Predicate`). -/
inductive ICmpPred where
  | eq | ne | ult | ule | ugt | uge | slt | sle | sgt | sge
deriving DecidableEq, Repr

/-- Mirrors `ICmpInst::isRelational` (everything but eq/ne). -/
def ICmpPred.isRelational : ICmpPred → Bool
  | .eq => false
  | .ne => false
  | _ => true

/-- Mirrors `ICmpInst::isSigned`. -/
def ICmpPred.isSigned : ICmpPred → Bool
  | .slt => true
  | .sle => true
  | .sgt => true
  | .sge => true
  | _ => false

/-- Embeds `CWriter::writeOperandWithCast(Value*, ICmpInst&)`
(CBackend.cpp:1473-1503): a cast is emitted only for relational predicates,
and it is a signed cast exactly when the predicate is signed. -/
def writeOperandWithCastICmpSign (pred : ICmpPred) : Option Bool :=
  if pred.isRelational then some pred.isSigned else none

/-! Name mangling (`CBEMangle`, CBackend.cpp:141-158, and
`CWriter::GetValueName`, CBackend.cpp:1252-1294). Names are modelled as lists
of characters; a character is converted through `% 256` exactly where the
source reads it as an `unsigned char`. -/

/-- The character class both manglers keep unchanged: ASCII letters, digits
and underscore (the explicit ranges tested in `GetValueName`, equivalent for
ASCII input to the `isalnum(c) || c == '_'` test in `CBEMangle`). -/
def isCIdentChar (c : Char) : Bool :=
  (97 ≤ c.toNat && c.toNat ≤ 122) || (65 ≤ c.toNat && c.toNat ≤ 90) ||
  (48 ≤ c.toNat && c.toNat ≤ 57) || c == '_'

/-- Embeds the per-character escaping of `CBEMangle`: a kept character stays;
any other character becomes `'_'`, `'A' + (c & 15)`, `'A' + ((c >> 4) & 15)`,
`'_'` (letters `A`..`P`, low nibble first). -/
def CBEMangleChar (c : Char) : List Char :=
  if isCIdentChar c then [c]
  else
    ['_', Char.ofNat (65 + ((c.toNat % 256) &&& 15)),
     Char.ofNat (65 + (((c.toNat % 256) >>> 4) &&& 15)), '_']

/-- Embeds `CBEMangle` (used for global value names). -/
def CBEMangle (name : List Char) : List Char :=
  (name.map CBEMangleChar).flatten

/-- Embeds the per-character escaping of the local-name loop in
`CWriter::GetValueName`: a kept character stays; any other character becomes
`sprintf("_%x_", ch)`, i.e. `'_'`, the lowercase hexadecimal digits of the
byte, `'_'`. -/
def getValueNameEscapeChar (c : Char) : List Char :=
  if isCIdentChar c then [c]
  else '_' :: Nat.toDigits 16 (c.toNat % 256) ++ ['_']

/-- Embeds the escaping loop of `CWriter::GetValueName` over a whole local
name (the `llvm_cbe_` prefix is then prepended by the caller). -/
def getValueNameEscape (name : List Char) : List Char :=
  (name.map getValueNameEscapeChar).flatten

/-- Embeds the anonymous-value naming of `GetValueName`: a value with an
empty name is called `tmp__<n>` with `n` drawn from the
`NextAnonValueNumber` counter. -/
def anonValueName (n : Nat) : List Char :=
  "tmp__".data ++ Nat.toDigits 10 n

/-- Embeds the unnamed-struct naming of `printTypeString`
(CBackend.cpp:163-174): `unnamed_<id>` with `id` drawn from the separate
`NextAnonStructNumber` counter. -/
def unnamedStructName (id : Nat) : List Char :=
  "unnamed_".data ++ Nat.toDigits 10 id

/-! Header generation (`CWriter::generateHeader`, CBackend.cpp:1736-1747, and
`generateCompilerSpecificCode`, CBackend.cpp:1508-1574, plus the bitcast
helper union of `printModuleTypes`, CBackend.cpp:2237-2243). -/

/-- The `#include <...>` directives the generated C file contains, in
emission order: four from `generateHeader` and the conditional
`<alloca.h>` from `generateCompilerSpecificCode` (inside its
non-Cygwin/MinGW preprocessor branch). -/
def generateHeaderIncludes : List String :=
  ["stdarg.h", "limits.h", "stdint.h", "math.h", "alloca.h"]

/-- The ISO C standard library headers (C11). -/
def standardCHeaders : List String :=
  ["assert.h", "complex.h", "ctype.h", "errno.h", "fenv.h", "float.h",
   "inttypes.h", "iso646.h", "limits.h", "locale.h", "math.h", "setjmp.h",
   "signal.h", "stdalign.h", "stdarg.h", "stdatomic.h", "stdbool.h",
   "stddef.h", "stdint.h", "stdio.h", "stdlib.h", "stdnoreturn.h",
   "string.h", "tgmath.h", "threads.h", "time.h", "uchar.h", "wchar.h",
   "wctype.h"]

/-- The macro names `generateCompilerSpecificCode` emits `#define`s for, in
order of first definition. -/
def compilerSpecificMacros : List String :=
  ["alloca", "_alloca", "NORETURN", "FORCEINLINE",
   "LLVM_NAN", "LLVM_NANF", "LLVM_INF", "LLVM_INFF",
   "__ATTRIBUTE_CTOR__", "__ATTRIBUTE_DTOR__"]

/-- The `typedef unsigned char bool;` fallback `generateHeader` emits under
`#ifndef __cplusplus`. -/
def boolTypedefLine : String := "typedef unsigned char bool;"

/-- The name of the helper union `printModuleTypes` emits for bitcasts. -/
def bitCastUnionName : String := "llvmBitCastUnion"

/-- The fields of the helper union, as `(C type, field name)` pairs in
emission order. -/
def bitCastUnionFields : List (String × String) :=
  [("uint32_t", "Int32"), ("uint64_t", "Int64"),
   ("float", "Float"), ("double", "Double")]

/-! PHI-node emission (`CWriter::printFunction`, CBackend.cpp:2404-2438,
`CWriter::printPHICopiesForSuccessor`, CBackend.cpp:2629-2644,
`CWriter::printBranchToBlock` / `visitBranchInst`, CBackend.cpp:2646-2699,
and `CWriter::visitPHINode`, CBackend.cpp:2704-2708). A function is modelled
as a list of basic blocks carrying their PHI nodes and terminators. -/

/-- An SSA value as PHI incoming operand: undef, a constant, or a named
instruction result. -/
inductive CVal where
  | undef : CVal
  | constInt (n : Int) : CVal
  | instRef (name : String) : CVal
deriving DecidableEq, Repr

/-- A PHI node: result name, result type, and incoming `(value, predecessor
block id)` pairs. -/
structure PhiNode where
  name : String
  ty : CType
  incoming : List (CVal × Nat)

/-- A terminator as the branch printer distinguishes them. -/
inductive CTerm where
  | brUncond (succ : Nat) : CTerm
  | brCond (cond : CVal) (succ0 succ1 : Nat) : CTerm
  | retVoid : CTerm

/-- A basic block: its id, its PHI nodes (which LLVM keeps at the head of the
block), and its terminator. -/
structure CBlockB where
  id : Nat
  phis : List PhiNode
  term : CTerm

/-- The emission events the PHI machinery produces. -/
inductive EmitEv where
  | declVar (name : String) : EmitEv
  | declShadow (name : String) : EmitEv
  | assignShadow (phiName : String) (v : CVal) : EmitEv
  | copyFromShadow (phiName : String) : EmitEv
  | gotoBlock (b : Nat) : EmitEv
deriving DecidableEq, Repr

/-- Mirrors `PHINode::getIncomingValueForBlock`. -/
def incomingFor (pn : PhiNode) (pred : Nat) : Option CVal :=
  (pn.incoming.find? (fun p => p.2 == pred)).map (·.1)

/-- Embeds the body of the loop of `printPHICopiesForSuccessor` for one PHI
node: the shadow assignment `<name>__PHI_TEMPORARY = <incoming>;` is emitted
unless the incoming value is undef or its type is empty. -/
def phiCopyFor (pred : Nat) (pn : PhiNode) : Option EmitEv :=
  match incomingFor pn pred with
  | some iv =>
    if !(iv == CVal.undef) && !isEmptyType pn.ty then
      some (.assignShadow pn.name iv)
    else none
  | none => none

/-- Looks a block up by id. -/
def findBlock (blocks : List CBlockB) (b : Nat) : Option CBlockB :=
  blocks.find? (fun blk => blk.id == b)

/-- Embeds `CWriter::printPHICopiesForSuccessor`: walks the PHI nodes at the
head of `succ` and emits a shadow assignment for each defined incoming value
from `cur`. -/
def printPHICopiesForSuccessor (blocks : List CBlockB) (cur succ : Nat) :
    List EmitEv :=
  match findBlock blocks succ with
  | some blk => blk.phis.filterMap (phiCopyFor cur)
  | none => []

/-- Embeds `CWriter::printBranchToBlock`: a goto is printed only when
`isGotoCodeNecessary` holds (that predicate depends on block layout and loop
info, so it is abstracted as the oracle `gotoNeeded`). -/
def printBranchToBlock (gotoNeeded : Nat → Nat → Bool) (cur succ : Nat) :
    List EmitEv :=
  if gotoNeeded cur succ then [.gotoBlock succ] else []

/-- Embeds the emission structure of `CWriter::visitBranchInst`: for a
conditional branch whose first successor needs a goto, PHI copies and a goto
are printed for the first successor, then for the second successor if it
needs a goto; when the first successor needs no goto, only the second
successor's copies and goto are printed (inside `if (!cond)`), and the first
successor is reached by fall-through *without* PHI copies. An unconditional
branch prints the successor's PHI copies and then the goto. -/
def visitBranchInstEvents (gotoNeeded : Nat → Nat → Bool)
    (blocks : List CBlockB) (blk : CBlockB) : List EmitEv :=
  match blk.term with
  | .brUncond succ =>
    printPHICopiesForSuccessor blocks blk.id succ
      ++ printBranchToBlock gotoNeeded blk.id succ
  | .brCond _ succ0 succ1 =>
    if gotoNeeded blk.id succ0 then
      (printPHICopiesForSuccessor blocks blk.id succ0
        ++ printBranchToBlock gotoNeeded blk.id succ0)
      ++ (if gotoNeeded blk.id succ1 then
            printPHICopiesForSuccessor blocks blk.id succ1
              ++ printBranchToBlock gotoNeeded blk.id succ1
          else [])
    else
      printPHICopiesForSuccessor blocks blk.id succ1
        ++ printBranchToBlock gotoNeeded blk.id succ1
  | .retVoid => []

/-- Embeds the local-variable loop of `CWriter::printFunction` restricted to
PHI nodes: every PHI with a non-empty type gets a real variable declaration
and, right after it, a `__PHI_TEMPORARY` shadow declaration (PHIs are never
inlinable, `isInlinableInst` rejects them). -/
def printFunctionPhiDecls (blocks : List CBlockB) : List EmitEv :=
  (blocks.map (fun blk =>
    (blk.phis.map (fun pn =>
      if !isEmptyType pn.ty then
        [EmitEv.declVar pn.name, EmitEv.declShadow pn.name]
      else [])).flatten)).flatten

/-- Embeds the instruction loop of `CWriter::printBasicBlock` restricted to
the PHI nodes at the head of the block: each non-empty PHI is printed as
`<name> = <name>__PHI_TEMPORARY;` (via `outputLValue` and `visitPHINode`),
before any non-PHI instruction of the block. -/
def printBasicBlockPhiEntry (blk : CBlockB) : List EmitEv :=
  blk.phis.filterMap (fun pn =>
    if !isEmptyType pn.ty then some (.copyFromShadow pn.name) else none)

end CBackend

namespace Frontend

/-! Shallow embedding of `ExpressionBuilder`
(`src/frontend/expression_builder.cpp`) together with `FunctionBuilder`'s
basic-block management (`src/frontend/function_builder.h`). Visits build IR
into a builder state; `Accept` failure and assertion failure are both
modelled as `none`. -/

/-- Resolved AST types (the scalar ones these claims need). -/
inductive STy where
  | tyInt | tyBoolean | tyFloat
deriving DecidableEq, Repr

/-- The AST expressions the modelled visits cover. An identifier carries its
referenced declaration (its id and `constant` flag) and its resolved type; a
call carries the callee name and return type. -/
inductive SExpr where
  | intLit (n : Int) : SExpr
  | boolLit (b : Bool) : SExpr
  | ident (declId : Nat) (isConstant : Bool) (ty : STy) : SExpr
  | callE (fname : String) (retTy : STy) : SExpr
  | peekE (idx : SExpr) : SExpr
  | popE : SExpr
  | commaE (lhs rhs : SExpr) : SExpr
  | logicalE (isAnd : Bool) (lhs rhs : SExpr) : SExpr

/-- The resolved type of an expression (as semantic analysis assigned it;
`peek`/`pop` yield the filter input type, `int` in the modelled filters). -/
def SExpr.ty : SExpr → STy
  | .intLit _ => .tyInt
  | .boolLit _ => .tyBoolean
  | .ident _ _ t => t
  | .callE _ t => t
  | .peekE _ => .tyInt
  | .popE => .tyInt
  | .commaE _ rhs => rhs.ty
  | .logicalE _ _ _ => .tyBoolean

/-- An LLVM value as the builder sees it: a constant, a virtual register
(instruction result), or the SSA value a constant declaration is bound to. -/
inductive IRVal where
  | cInt (n : Int) : IRVal
  | cBool (b : Bool) : IRVal
  | reg (r : Nat) : IRVal
  | varRef (declId : Nat) : IRVal
deriving DecidableEq, Repr

/-- The IR instructions the modelled visits emit. -/
inductive IRInst where
  | loadInst (dst declId : Nat) : IRInst
  | callInst (dst : Nat) (fname : String) : IRInst
  | peekInst (dst : Nat) (idx : IRVal) : IRInst
  | popInst (dst : Nat) : IRInst
  | phiInst (dst : Nat) (incoming : List (IRVal × Nat)) : IRInst
deriving DecidableEq, Repr

/-- Block terminators. -/
inductive IRTerm where
  | condBr (cond : IRVal) (ifTrue ifFalse : Nat) : IRTerm
  | br (dest : Nat) : IRTerm
deriving DecidableEq, Repr

/-- The `FunctionBuilder` state: the current basic block, the emitted
instructions tagged with their block, the terminators installed so far, and
the fresh-register / fresh-block counters. -/
structure BState where
  cur : Nat
  code : List (Nat × IRInst)
  terms : List (Nat × IRTerm)
  nextReg : Nat
  nextBlock : Nat
deriving Repr

/-- The builder state at function entry: current block 0, nothing emitted. -/
def initialBState : BState := ⟨0, [], [], 0, 1⟩

/-- Embeds `FunctionBuilder::NewBasicBlock`: creates a fresh block, makes it
current, and returns the old basic block pointer. -/
def newBasicBlock (s : BState) : Nat × BState :=
  (s.cur, { s with cur := s.nextBlock, nextBlock := s.nextBlock + 1 })

/-- Appends an instruction at the current insertion point, returning the
fresh result register. -/
def emitInst (mk : Nat → IRInst) (s : BState) : Nat × BState :=
  (s.nextReg,
   { s with code := s.code ++ [(s.cur, mk s.nextReg)],
            nextReg := s.nextReg + 1 })

/-- Installs a terminator on block `b` (an `IRBuilder` pointed at `b`). -/
def setTerm (b : Nat) (t : IRTerm) (s : BState) : BState :=
  { s with terms := s.terms ++ [(b, t)] }

/-- The result slots of an `ExpressionBuilder`: `m_result_ptr` (the variable
slot of a mutable lvalue) and `m_result_value`. -/
structure ExprResult where
  resultPtr : Option Nat := none
  resultValue : Option IRVal := none
deriving Repr

/-- Mirrors `ExpressionBuilder::IsValid`. -/
def ExprResult.isValid (r : ExprResult) : Bool :=
  r.resultPtr.isSome || r.resultValue.isSome

/-- Mirrors `ExpressionBuilder::IsPointer`. -/
def ExprResult.isPointer (r : ExprResult) : Bool := r.resultPtr.isSome

/-- Embeds `ExpressionBuilder::GetResultValue`: an already-present value is
returned as is; a pointer result is loaded through the current insertion
point; neither present gives nothing. -/
def getResultValue (r : ExprResult) (s : BState) : Option (IRVal × BState) :=
  match r.resultValue with
  | some v => some (v, s)
  | none =>
    match r.resultPtr with
    | some d =>
      let (dst, s') := emitInst (fun dst => .loadInst dst d) s
      some (.reg dst, s')
    | none => none

/-- Embeds the `ExpressionBuilder::Visit` overloads of
`expression_builder.cpp` for the modelled expressions:
literals (lines 62-87), identifiers (lines 89-99), comma (lines 119-136,
which accepts the *left* operand into both sub-builders), logical and/or
(lines 388-440), peek (lines 442-452) and pop (lines 455-459). `none` models
a failed `Accept`/`IsValid` or a failed assertion. -/
def emitExpr : SExpr → BState → Option (ExprResult × BState)
  | .intLit n, s => some ({ resultValue := some (.cInt n) }, s)
  | .boolLit b, s => some ({ resultValue := some (.cBool b) }, s)
  | .ident d isConst _, s =>
    if isConst then some ({ resultValue := some (.varRef d) }, s)
    else some ({ resultPtr := some d }, s)
  | .callE fname _, s =>
    let (dst, s') := emitInst (fun dst => .callInst dst fname) s
    some ({ resultValue := some (.reg dst) }, s')
  | .popE, s =>
    let (dst, s') := emitInst (fun dst => .popInst dst) s
    some ({ resultValue := some (.reg dst) }, s')
  | .peekE idx, s => do
    let (indexEb, s1) ← emitExpr idx s
    if !indexEb.isValid then none
    else if !(idx.ty == .tyInt) then none
    else do
      let (iv, s2) ← getResultValue indexEb s1
      let (dst, s3) := emitInst (fun dst => .peekInst dst iv) s2
      some ({ resultValue := some (.reg dst) }, s3)
  | .commaE lhs _rhs, s => do
    let (ebLhs, s1) ← emitExpr lhs s
    if !ebLhs.isValid then none
    else do
      let (ebRhs, s2) ← emitExpr lhs s1
      if !ebRhs.isValid then none
      else if ebRhs.isPointer then some ({ resultPtr := ebRhs.resultPtr }, s2)
      else do
        let (v, s3) ← getResultValue ebRhs s2
        some ({ resultValue := some v }, s3)
  | .logicalE isAnd lhs rhs, s => do
    let (ebLhs, s1) ← emitExpr lhs s
    if !ebLhs.isValid then none
    else if !(lhs.ty == .tyBoolean && rhs.ty == .tyBoolean) then none
    else do
      let (lhsEndBB, s2) := newBasicBlock s1
      let (ebRhs, s3) ← emitExpr rhs s2
      if !ebRhs.isValid then none
      else do
        let (rhsEndBB, s4) := newBasicBlock s3
        let mergeBB := s4.cur
        let (lv, s5) ← getResultValue ebLhs s4
        let s6 := setTerm lhsEndBB
          (if isAnd then .condBr lv rhsEndBB mergeBB
           else .condBr lv mergeBB rhsEndBB) s5
        let s7 := setTerm rhsEndBB (.br mergeBB) s6
        let (rv, s8) ← getResultValue ebRhs s7
        let (phiReg, s9) := emitInst (fun dst =>
          .phiInst dst [(.cBool (!isAnd), lhsEndBB), (rv, rhsEndBB)]) s8
        some ({ resultValue := some (.reg phiReg) }, s9)

/-! Execution semantics for the generated IR, used to state short-circuit
behaviour: calls are boolean-valued and looked up in an oracle, and a trace
records the calls executed in order. -/

/-- A run-time state: the registers assigned so far and the executed calls. -/
structure ExecState where
  env : List (Nat × Bool)
  trace : List String

/-- Evaluates an IR value in an environment (only booleans matter here). -/
def evalVal (env : List (Nat × Bool)) : IRVal → Bool
  | .cBool b => b
  | .cInt n => n != 0
  | .reg r => (env.lookup r).getD false
  | .varRef _ => false

/-- Executes one instruction; `prev` is the block control came from, used to
resolve PHI nodes. -/
def execInst (oracle : String → Bool) (prev : Nat) (st : ExecState) :
    IRInst → ExecState
  | .callInst dst f =>
    { env := (dst, oracle f) :: st.env, trace := st.trace ++ [f] }
  | .phiInst dst incoming =>
    let v := match incoming.find? (fun p => p.2 == prev) with
             | some p => evalVal st.env p.1
             | none => false
    { st with env := (dst, v) :: st.env }
  | .loadInst dst _ => { st with env := (dst, false) :: st.env }
  | .peekInst dst _ => { st with env := (dst, false) :: st.env }
  | .popInst dst => { st with env := (dst, false) :: st.env }

/-- The instructions of block `b`, in emission order. -/
def blockInsts (code : List (Nat × IRInst)) (b : Nat) : List IRInst :=
  (code.filter (fun p => p.1 == b)).map (·.2)

/-- Runs the control-flow graph from block `b` (entered from `prev`) until a
block without a terminator finishes, with `fuel` bounding the number of block
transitions. -/
def execFrom (oracle : String → Bool) (code : List (Nat × IRInst))
    (terms : List (Nat × IRTerm)) :
    Nat → Nat → Nat → ExecState → Option ExecState
  | 0, _, _, _ => none
  | fuel + 1, b, prev, st =>
    let st' := (blockInsts code b).foldl (execInst oracle prev) st
    match terms.lookup b with
    | none => some st'
    | some (.br d) => execFrom oracle code terms fuel d b st'
    | some (.condBr c t f) =>
      execFrom oracle code terms fuel
        (if evalVal st'.env c then t else f) b st'

/-- Lowers `f() && g()` (or `f() || g()`) from a fresh builder state and runs
the produced control-flow graph: the result is the final value of the
expression together with the trace of executed calls. -/
def runLoweredLogical (isAnd : Bool) (f g : String)
    (oracle : String → Bool) : Option (Bool × List String) := do
  let (res, s) ←
    emitExpr (.logicalE isAnd (.callE f .tyBoolean) (.callE g .tyBoolean))
      initialBState
  let fin ← execFrom oracle s.code s.terms 16 0 0 ⟨[], []⟩
  let v ← res.resultValue
  some (evalVal fin.env v, fin.trace)

end Frontend

open CBackend Frontend

/-! Theorems settling the claims. -/

/-- C1, counterexample: an integer compare whose result has two uses, in
blocks other than its own, is nevertheless printed inline by
`writeOperandInternal` (`isInlinableInst` inlines every `CmpInst`
unconditionally), so the claimed "inlined iff exactly one use in the same
block" equivalence is false, as is its consequence that a multi-use
instruction is never inlined. -/
theorem C1_cmp_multiuse_inlined_counterexample :
    writeOperandInlines ⟨.icmp, .integer 1, 0, 0, [1, 2], false⟩ = true ∧
    (⟨.icmp, .integer 1, 0, 0, [1, 2], false⟩ : InstInfo).userParents.length = 2 := by
  exact ⟨rfl, rfl⟩

/-- C2, code evaluated at the failing input: for a 3-bit store the emitter
masks with the exact bit mask 7 and power-of-two byte widths stay unmasked,
but for a store of an `i33` value the mask variable (a 32-bit C `unsigned`)
truncates `getBitMask` = `(1<<33)-1` = 8589934591 to 4294967295, so the
emitted C is `((x) & 4294967295)` rather than the type's bit mask the claim
(and the code's own comment) call for. -/
theorem C2_store_mask_truncation :
    storeBitMask 3 = 7 ∧
    visitStoreInstRHS "x" 3 = "((x) & 7)" ∧
    storeBitMask 8 = 0 ∧
    visitStoreInstRHS "x" 8 = "x" ∧
    storeBitMask 64 = 0 ∧
    getBitMask 33 = 8589934591 ∧
    storeBitMask 33 = 4294967295 ∧
    ¬storeBitMask 33 = getBitMask 33 ∧
    visitStoreInstRHS "x" 33 = "((x) & 4294967295)" ∧
    writeInstComputationInlineText "e" 33 = "((e)&4294967295)" := by
  refine ⟨rfl, rfl, rfl, rfl, rfl, rfl, rfl, by decide, rfl, rfl⟩

/-- C3, counterexample: `xor` is an integer binary operation the emitter
handles, yet `opcodeNeedsCast` emits no operand cast at all for it (likewise
`shl`, `and`, `or`); and a signed operand cast is emitted for
`getelementptr` index operands, which is none of signed compare, signed
divide, signed remainder, or arithmetic shift-right. -/
theorem C3_xor_gep_cast_counterexample :
    (COpcode.xorOp ∈ integerBinaryOpcodes ∧
      writeOperandWithCastSign .xorOp = none) ∧
    (COpcode.shl ∈ integerBinaryOpcodes ∧
      writeOperandWithCastSign .shl = none) ∧
    writeOperandWithCastSign .getelementptr = some true := by
  exact ⟨⟨by decide, rfl⟩, ⟨by decide, rfl⟩, rfl⟩

/-- C3, amended: among the opcodes, an unsigned operand cast is emitted
exactly for add, sub, mul, lshr, udiv and urem; a signed operand cast exactly
for getelementptr, ashr, sdiv and srem; the integer binary operators left
without any cast are shl, and, or, xor; and for integer compares a cast is
emitted only for relational predicates, signed exactly for the signed ones. -/
theorem C3_operand_casts_amended :
    (∀ op : COpcode, writeOperandWithCastSign op = some false ↔
        op ∈ ([.add, .sub, .mul, .lshr, .udiv, .urem] : List COpcode)) ∧
    (∀ op : COpcode, writeOperandWithCastSign op = some true ↔
        op ∈ ([.getelementptr, .ashr, .sdiv, .srem] : List COpcode)) ∧
    integerBinaryOpcodes.filter
        (fun op => (writeOperandWithCastSign op).isNone) =
      [.shl, .andOp, .orOp, .xorOp] ∧
    (∀ pred : ICmpPred,
        writeOperandWithCastICmpSign pred = some true ↔ pred.isSigned = true) ∧
    (∀ pred : ICmpPred,
        writeOperandWithCastICmpSign pred = none ↔ pred.isRelational = false) := by
  refine ⟨fun op => by cases op <;> decide, fun op => by cases op <;> decide,
    by decide, fun pred => by cases pred <;> decide,
    fun pred => by cases pred <;> decide⟩

/-- C6, counterexample: no integer width is ever printed as a 128-bit C
type; a width of 100 (where the claim requires a 128-bit C integer) produces
no simple type at all (the backend asserts `NumBits <= 64`, "Bit widths > 64
not implemented yet"). -/
theorem C6_no_int128_counterexample :
    printSimpleTypeInt 100 false = none ∧
    printSimpleTypeInt 100 true = none ∧
    ((List.range 200).all
      (fun w => !(printSimpleTypeInt w false == some "uint128_t") &&
                !(printSimpleTypeInt w true == some "int128_t"))) = true := by
  exact ⟨rfl, rfl, by decide⟩

/-- C9, confirmed: among ISO C standard headers the generated file includes
exactly `<stdarg.h>`, `<limits.h>`, `<stdint.h>` and `<math.h>`; its only
other include, `<alloca.h>` (inside a compiler-conditional block), is not a
standard header; the helper macros `NORETURN`, `FORCEINLINE`, `LLVM_NAN`,
`LLVM_NANF`, `LLVM_INF`, `LLVM_INFF` are self-emitted; a `bool` typedef is
provided for C; and the bitcast helper union `llvmBitCastUnion` carries the
32/64-bit integer and float/double views. -/
theorem C9_headers_and_helpers :
    generateHeaderIncludes.filter (fun h => standardCHeaders.contains h) =
      ["stdarg.h", "limits.h", "stdint.h", "math.h"] ∧
    generateHeaderIncludes.filter (fun h => !standardCHeaders.contains h) =
      ["alloca.h"] ∧
    (["NORETURN", "FORCEINLINE", "LLVM_NAN", "LLVM_NANF", "LLVM_INF",
      "LLVM_INFF"].all (fun m => compilerSpecificMacros.contains m)) = true ∧
    boolTypedefLine = "typedef unsigned char bool;" ∧
    bitCastUnionName = "llvmBitCastUnion" ∧
    bitCastUnionFields.map (·.1) = ["uint32_t", "uint64_t", "float", "double"] := by
  refine ⟨by decide, by decide, by decide, rfl, rfl, by decide⟩

/-- C10, confirmed: the comma visit accepts the left-hand expression into
both sub-builders and never visits the right-hand one, so the lowering of a
comma expression is literally independent of its right operand, the left
operand's code (here: its call) is emitted twice, and the result is the
value of the second lowering of the left operand. -/
theorem C10_comma_lowers_lhs_twice :
    (∀ (lhs rhs rhs2 : SExpr) (s : BState),
        emitExpr (.commaE lhs rhs) s = emitExpr (.commaE lhs rhs2) s) ∧
    (∀ (f g : String) (t u : STy),
        emitExpr (.commaE (.callE f t) (.callE g u)) initialBState =
          some ({ resultPtr := none, resultValue := some (.reg 1) },
                { cur := 0, code := [(0, .callInst 0 f), (0, .callInst 1 f)],
                  terms := [], nextReg := 2, nextBlock := 1 })) := by
  exact ⟨fun lhs rhs rhs2 s => rfl, fun f g t u => rfl⟩

/-- C7, counterexample: a `peek` whose index is a read of a non-constant
variable (the shape a loop-variable index such as `peek(i)` in the Cor1
autocorrelation test takes) is accepted by the lowering: the index is loaded
at run time and passed to `BuildPeek`; no constant-ness or `peek_rate` bound
is checked, contradicting the claimed rejection. -/
theorem C7_nonconstant_peek_accepted_counterexample :
    emitExpr (.peekE (.ident 0 false .tyInt)) initialBState =
      some ({ resultPtr := none, resultValue := some (.reg 1) },
            { cur := 0,
              code := [(0, .loadInst 0 0), (0, .peekInst 1 (.reg 0))],
              terms := [], nextReg := 2, nextBlock := 1 }) := rfl

/-- C8, counterexample: on the character `'-'` the global-name mangler
`CBEMangle` produces `_NC_` — letters `N` and `C`, which are not hexadecimal
digits of 0x2d — while the local-name escaping produces the hexadecimal form
`_2d_`; so global names are not escaped to the underscore-delimited
hexadecimal form the claim asserts for both. -/
theorem C8_mangle_not_hex_counterexample :
    CBEMangle ['-'] = ['_', 'N', 'C', '_'] ∧
    getValueNameEscape ['-'] = ['_', '2', 'd', '_'] ∧
    ¬CBEMangle ['-'] = getValueNameEscape ['-'] ∧
    "0123456789abcdefABCDEF".data.contains 'N' = false := by
  refine ⟨by decide, by decide, by decide, by decide⟩

set_option maxRecDepth 4096 in
/-- Every lowercase-hex escape body produced from a byte consists of
identifier characters. -/
theorem toDigits16_identSafe :
    ∀ m < 256, (Nat.toDigits 16 m).all isCIdentChar = true := by decide

/-- Letters `A`..`P` (65 + a nibble) are identifier characters. -/
theorem nibbleLetter_identSafe :
    ∀ x < 16, isCIdentChar (Char.ofNat (65 + x)) = true := by decide

/-- The local-name escaping emits only identifier characters. -/
theorem getValueNameEscapeChar_identSafe (c : Char) :
    (getValueNameEscapeChar c).all isCIdentChar = true := by
  unfold getValueNameEscapeChar
  by_cases h : isCIdentChar c
  · simp [h]
  · have hm : c.toNat % 256 < 256 := Nat.mod_lt _ (by norm_num)
    have hu : isCIdentChar '_' = true := by decide
    simp [h, List.all_append, toDigits16_identSafe _ hm, hu]

/-- The `CBEMangle` escaping emits only identifier characters. -/
theorem CBEMangleChar_identSafe (c : Char) :
    (CBEMangleChar c).all isCIdentChar = true := by
  unfold CBEMangleChar
  by_cases h : isCIdentChar c
  · simp [h]
  · have h1 : (c.toNat % 256) &&& 15 < 16 :=
      lt_of_le_of_lt (Nat.and_le_right) (by norm_num)
    have h2 : ((c.toNat % 256) >>> 4) &&& 15 < 16 :=
      lt_of_le_of_lt (Nat.and_le_right) (by norm_num)
    have hu : isCIdentChar '_' = true := by decide
    simp [h, nibbleLetter_identSafe _ h1, nibbleLetter_identSafe _ h2, hu]

/-- C8, amended: local value names escape each non-identifier character to
the underscore-delimited lowercase hexadecimal form `_<hex>_`, while global
names go through `CBEMangle`, which instead escapes such a character to an
underscore-delimited pair of letters `A`..`P` encoding its low and high
nibbles; both manglings produce only C-identifier characters but differ
(e.g. `.` becomes `_2e_` locally and `_OC_` globally); anonymous values are
named `tmp__<n>` and unnamed structs `unnamed_<n>` from (separate) numeric
counters. -/
theorem C8_mangling_amended :
    (∀ name : List Char, (getValueNameEscape name).all isCIdentChar = true) ∧
    (∀ name : List Char, (CBEMangle name).all isCIdentChar = true) ∧
    getValueNameEscape "a.b-c".data = "a_2e_b_2d_c".data ∧
    CBEMangle "a.b-c".data = "a_OC_b_NC_c".data ∧
    anonValueName 5 = "tmp__5".data ∧
    unnamedStructName 3 = "unnamed_3".data := by
  refine ⟨?_, ?_, by decide, by decide, by decide, by decide⟩
  · intro name
    induction name with
    | nil => rfl
    | cons c cs ih =>
      show ((getValueNameEscapeChar c ++ getValueNameEscape cs).all
        isCIdentChar) = true
      rw [List.all_append, getValueNameEscapeChar_identSafe c, ih]
      rfl
  · intro name
    induction name with
    | nil => rfl
    | cons c cs ih =>
      show ((CBEMangleChar c ++ CBEMangle cs).all isCIdentChar) = true
      rw [List.all_append, CBEMangleChar_identSafe c, ih]
      rfl

/-- Characterisation of `isInlinableInst`: compares are always inlinable;
any other instruction is inlinable iff its type is non-empty, it has exactly
one use, that use is in its own block, and the opcode is none of the
excluded ones. -/
theorem isInlinableInst_iff (I : InstInfo) :
    isInlinableInst I = true ↔
      (I.opcode.isCmp = true ∨
        (isEmptyType I.ty = false ∧ I.userParents = [I.parent] ∧
         I.opcode.isTerminator = false ∧ ¬I.opcode = .call ∧
         ¬I.opcode = .phi ∧ ¬I.opcode = .load ∧ ¬I.opcode = .vaarg ∧
         ¬I.opcode = .insertelement ∧ ¬I.opcode = .insertvalue)) := by
  by_cases hc : I.opcode.isCmp = true
  · simp [isInlinableInst, hc]
  · have hc' : I.opcode.isCmp = false := Bool.eq_false_iff.mpr hc
    rw [isInlinableInst, if_neg (by simp [hc']), or_iff_right (by simp [hc'])]
    by_cases hbad : (isEmptyType I.ty || !hasOneUse I || I.opcode.isTerminator
        || I.opcode == .call || I.opcode == .phi || I.opcode == .load
        || I.opcode == .vaarg || I.opcode == .insertelement
        || I.opcode == .insertvalue) = true
    · rw [if_pos hbad]
      constructor
      · intro h; exact absurd h (by simp)
      · rintro ⟨hemp, hups, hterm, h1, h2, h3, h4, h5, h6⟩
        have hone : hasOneUse I = true := by simp [hasOneUse, hups]
        simp [hemp, hone, hterm, h1, h2, h3, h4, h5, h6] at hbad
    · rw [if_neg hbad]
      have hC := Bool.eq_false_iff.mpr hbad
      simp only [Bool.or_eq_false_iff] at hC
      obtain ⟨⟨⟨⟨⟨⟨⟨⟨hA, hB⟩, hT⟩, hD⟩, hE⟩, hF⟩, hG⟩, hH⟩, hI⟩ := hC
      have hone : hasOneUse I = true := by simpa using hB
      obtain ⟨u, hu⟩ := List.length_eq_one.mp (by simpa [hasOneUse] using hone)
      rw [hu]
      simp only [List.head?_cons, beq_iff_eq]
      have hD' := beq_eq_false_iff_ne.mp hD
      have hE' := beq_eq_false_iff_ne.mp hE
      have hF' := beq_eq_false_iff_ne.mp hF
      have hG' := beq_eq_false_iff_ne.mp hG
      have hH' := beq_eq_false_iff_ne.mp hH
      have hI' := beq_eq_false_iff_ne.mp hI
      simp [hA, hT, hD', hE', hF', hG', hH', hI', eq_comm]

/-- C1, amended: an instruction operand is printed inline iff it is not a
direct alloca and either it is a compare instruction (those are always
inlined, whatever their use count), or its result type is non-empty, it has
exactly one use, that use lies in the instruction's own basic block, and its
opcode is not a terminator, call, PHI, load, va_arg, insertelement or
insertvalue. -/
theorem C1_inlining_amended (I : InstInfo) :
    writeOperandInlines I = true ↔
      (isDirectAlloca I = false ∧
        (I.opcode.isCmp = true ∨
          (isEmptyType I.ty = false ∧ I.userParents = [I.parent] ∧
           I.opcode.isTerminator = false ∧ ¬I.opcode = .call ∧
           ¬I.opcode = .phi ∧ ¬I.opcode = .load ∧ ¬I.opcode = .vaarg ∧
           ¬I.opcode = .insertelement ∧ ¬I.opcode = .insertvalue))) := by
  rw [writeOperandInlines, Bool.and_eq_true, Bool.not_eq_true',
    isInlinableInst_iff]
  exact and_comm

/-- C6, amended: integer widths printed as simple types round up to the next
of 8, 16, 32 or 64 bits (width 1 becoming `bool`), the emitted C type being
`intN_t`/`uintN_t` for the least bucket at least as large as the width;
widths above 64 bits are not supported (the 128-bit case of the claim does
not exist in the code). -/
theorem C6_width_rounding_amended :
    (∀ s : Bool, printSimpleTypeInt 1 s = some "bool") ∧
    (∀ (w : Nat) (s : Bool), 2 ≤ w → w ≤ 64 →
      ∃ b ∈ ([8, 16, 32, 64] : List Nat), w ≤ b ∧
        (∀ b2 ∈ ([8, 16, 32, 64] : List Nat), w ≤ b2 → b ≤ b2) ∧
        printSimpleTypeInt w s =
          some ((if s then "int" else "uint") ++ toString b ++ "_t")) ∧
    (∀ (w : Nat) (s : Bool), 64 < w → printSimpleTypeInt w s = none) := by
  refine ⟨fun s => by cases s <;> rfl, ?_, ?_⟩
  · intro w s h2 h64
    by_cases h8 : w ≤ 8
    · refine ⟨8, by simp, h8, fun b2 hb2 hw => by fin_cases hb2 <;> omega, ?_⟩
      unfold printSimpleTypeInt
      rw [if_neg (by simp; omega), if_pos h8]
      cases s <;> rfl
    · by_cases h16 : w ≤ 16
      · refine ⟨16, by simp, h16,
          fun b2 hb2 hw => by fin_cases hb2 <;> omega, ?_⟩
        unfold printSimpleTypeInt
        rw [if_neg (by simp; omega), if_neg h8, if_pos h16]
        cases s <;> rfl
      · by_cases h32 : w ≤ 32
        · refine ⟨32, by simp, h32,
            fun b2 hb2 hw => by fin_cases hb2 <;> omega, ?_⟩
          unfold printSimpleTypeInt
          rw [if_neg (by simp; omega), if_neg h8, if_neg h16, if_pos h32]
          cases s <;> rfl
        · refine ⟨64, by simp, h64,
            fun b2 hb2 hw => by fin_cases hb2 <;> omega, ?_⟩
          unfold printSimpleTypeInt
          rw [if_neg (by simp; omega), if_neg h8, if_neg h16, if_neg h32,
            if_pos h64]
          cases s <;> rfl
  · intro w s h
    unfold printSimpleTypeInt
    rw [if_neg (by simp; omega), if_neg (by omega), if_neg (by omega),
      if_neg (by omega), if_neg (by omega)]

/-- Witness for the amended width-rounding theorem at width 12: the least
bucket is 16 and the emitted type is `uint16_t`. -/
theorem C6_width_rounding_amended_witness :
    (2 ≤ 12 ∧ 12 ≤ 64) ∧
    (∃ b ∈ ([8, 16, 32, 64] : List Nat), 12 ≤ b ∧
      (∀ b2 ∈ ([8, 16, 32, 64] : List Nat), 12 ≤ b2 → b ≤ b2) ∧
      printSimpleTypeInt 12 false =
        some ((if false then "int" else "uint") ++ toString b ++ "_t")) :=
  ⟨⟨by decide, by decide⟩,
   C6_width_rounding_amended.2.1 12 false (by decide) (by decide)⟩

/-- A valid expression result always yields a value (loading through the
pointer slot when no value is present). -/
theorem getResultValue_total (r : ExprResult) (s : BState)
    (h : r.isValid = true) : ∃ iv s2, getResultValue r s = some (iv, s2) := by
  unfold getResultValue
  cases hv : r.resultValue with
  | some v => exact ⟨v, s, rfl⟩
  | none =>
    cases hp : r.resultPtr with
    | some d => exact ⟨_, _, rfl⟩
    | none =>
      unfold ExprResult.isValid at h
      rw [hv, hp] at h
      simp at h

/-- C7, amended: the lowering accepts `peek(i)` for every integer-typed
index expression `i` that itself lowers to a valid result — constant or not —
and emits a `BuildPeek` call taking the index value at run time; no
constant-ness or `peek_rate` bound is checked. -/
theorem C7_peek_lowering_amended :
    ∀ (idx : SExpr) (s : BState) (r : ExprResult) (s1 : BState),
      idx.ty = .tyInt → emitExpr idx s = some (r, s1) → r.isValid = true →
      ∃ iv s2, getResultValue r s1 = some (iv, s2) ∧
        emitExpr (.peekE idx) s =
          some ({ resultPtr := none, resultValue := some (.reg s2.nextReg) },
                { s2 with
                    code := s2.code ++ [(s2.cur, .peekInst s2.nextReg iv)],
                    nextReg := s2.nextReg + 1 }) := by
  intro idx s r s1 hty hemit hvalid
  obtain ⟨iv, s2, hget⟩ := getResultValue_total r s1 hvalid
  refine ⟨iv, s2, hget, ?_⟩
  simp only [emitExpr]
  rw [hemit]
  simp [hvalid, hty, hget, emitInst]

/-- Witness for the amended peek theorem at the non-constant index
`peek(x)` with `x` a mutable integer variable. -/
theorem C7_peek_lowering_amended_witness :
    (SExpr.ident 0 false .tyInt).ty = .tyInt ∧
    emitExpr (.ident 0 false .tyInt) initialBState =
      some ({ resultPtr := some 0, resultValue := none }, initialBState) ∧
    ({ resultPtr := some 0, resultValue := none } : ExprResult).isValid
      = true ∧
    (∃ iv s2,
      getResultValue { resultPtr := some 0, resultValue := none }
        initialBState = some (iv, s2) ∧
      emitExpr (.peekE (.ident 0 false .tyInt)) initialBState =
        some ({ resultPtr := none, resultValue := some (.reg s2.nextReg) },
              { s2 with
                  code := s2.code ++ [(s2.cur, .peekInst s2.nextReg iv)],
                  nextReg := s2.nextReg + 1 })) :=
  ⟨rfl, rfl, rfl,
   C7_peek_lowering_amended (.ident 0 false .tyInt) initialBState
     { resultPtr := some 0, resultValue := none } initialBState rfl rfl rfl⟩

/-- The lowering of `f() && g()` (resp. `||`) from a fresh builder: one
definitional execution step into the diamond, exposing the conditional
branch on the value of `f()`. -/
theorem runLowered_step (isAnd : Bool) (f g : String) (oracle : String → Bool) :
    runLoweredLogical isAnd f g oracle =
      (execFrom oracle
        [(0, .callInst 0 f), (1, .callInst 1 g),
         (2, .phiInst 2 [(.cBool (!isAnd), 0), (.reg 1, 1)])]
        [(0, if isAnd then .condBr (.reg 0) 1 2 else .condBr (.reg 0) 2 1),
         (1, .br 2)]
        15
        (if isAnd then (if oracle f then 1 else 2)
         else (if oracle f then 2 else 1))
        0 ⟨[(0, oracle f)], [f]⟩).bind
        (fun fin => some (evalVal fin.env (.reg 2), fin.trace)) := by
  cases isAnd <;> rfl

/-- C5, confirmed: lowering `f() && g()` (resp. `f() || g()`) produces the
diamond with a PHI at the merge block, and running the produced control-flow
graph shows short-circuit behaviour: when `f()` is false (resp. true) the
call to `g()` never executes and the PHI yields false (resp. true); in the
other case `g()` executes once and the PHI yields its value. -/
theorem C5_short_circuit :
    ∀ (f g : String) (oracle : String → Bool),
      (oracle f = false →
        runLoweredLogical true f g oracle = some (false, [f])) ∧
      (oracle f = true →
        runLoweredLogical true f g oracle = some (oracle g, [f, g])) ∧
      (oracle f = true →
        runLoweredLogical false f g oracle = some (true, [f])) ∧
      (oracle f = false →
        runLoweredLogical false f g oracle = some (oracle g, [f, g])) := by
  intro f g oracle
  refine ⟨fun h => ?_, fun h => ?_, fun h => ?_, fun h => ?_⟩ <;>
    rw [runLowered_step, h] <;> rfl

/-- Witness for the short-circuit theorem with the oracle that makes every
call false: lowering `f() && g()` and running it executes only `f` and the
PHI yields false. -/
theorem C5_short_circuit_witness :
    (fun (_ : String) => false) "f" = false ∧
    runLoweredLogical true "f" "g" (fun _ => false) = some (false, ["f"]) :=
  ⟨rfl, (C5_short_circuit "f" "g" (fun _ => false)).1 rfl⟩

/-- C4, counterexample: in a function whose entry block branches
unconditionally to a block holding the PHI `x = phi [undef, entry]`, the
predecessor's emitted code contains no shadow assignment at all (the
`printPHICopiesForSuccessor` loop skips undef incoming values), so "every
predecessor basic block assigns the incoming value to the shadow variable
before its branch" is false. -/
theorem C4_undef_incoming_counterexample :
    printPHICopiesForSuccessor
      [⟨0, [], .brUncond 1⟩,
       ⟨1, [⟨"x", .integer 32, [(.undef, 0)]⟩], .retVoid⟩] 0 1 = [] ∧
    visitBranchInstEvents (fun _ _ => true)
      [⟨0, [], .brUncond 1⟩,
       ⟨1, [⟨"x", .integer 32, [(.undef, 0)]⟩], .retVoid⟩]
      ⟨0, [], .brUncond 1⟩ = [.gotoBlock 1] ∧
    incomingFor ⟨"x", .integer 32, [(.undef, 0)]⟩ 0 = some .undef ∧
    isEmptyType (.integer 32) = false := ⟨rfl, rfl, rfl, rfl⟩

/-- The PHI-copy loop emits the shadow assignment for a PHI whose incoming
value from `pred` is defined and whose type is non-empty. -/
theorem phiCopyFor_eq (pred : Nat) (pn : PhiNode) (iv : CVal)
    (hinc : incomingFor pn pred = some iv) (hiv : ¬iv = .undef)
    (hne : isEmptyType pn.ty = false) :
    phiCopyFor pred pn = some (EmitEv.assignShadow pn.name iv) := by
  unfold phiCopyFor
  rw [hinc]
  show (if (!(iv == CVal.undef) && !isEmptyType pn.ty) = true
        then some (EmitEv.assignShadow pn.name iv) else none) =
      some (EmitEv.assignShadow pn.name iv)
  rw [beq_eq_false_iff_ne.mpr hiv, hne]
  rfl

/-- Membership of the shadow assignment in the PHI copies printed for a
successor. -/
theorem assignShadow_mem (blocks : List CBlockB) (pred succ : Nat)
    (blk : CBlockB) (pn : PhiNode) (iv : CVal)
    (hfind : findBlock blocks succ = some blk) (hpn : pn ∈ blk.phis)
    (hinc : incomingFor pn pred = some iv) (hiv : ¬iv = .undef)
    (hne : isEmptyType pn.ty = false) :
    EmitEv.assignShadow pn.name iv ∈
      printPHICopiesForSuccessor blocks pred succ := by
  unfold printPHICopiesForSuccessor
  rw [hfind]
  exact List.mem_filterMap.mpr ⟨pn, hpn, phiCopyFor_eq pred pn iv hinc hiv hne⟩

/-- C4, amended: for every PHI node of non-empty type, the function prologue
declares both the real variable and the `__PHI_TEMPORARY` shadow, and the
PHI's own block copies the shadow into the real value at block entry; a
predecessor assigns the incoming value to the shadow before its branch
whenever that value is defined (not undef) and the emitter prints that branch
path — always for an unconditional branch, and for a conditional branch on
the paths for which a goto is emitted (the fall-through successor of a
conditional branch, like an undef incoming value, gets no assignment). -/
theorem C4_phi_shadow_amended
    (blocks : List CBlockB) (gotoNeeded : Nat → Nat → Bool)
    (blk pred : CBlockB) (pn : PhiNode) (iv : CVal)
    (hblk : blk ∈ blocks) (hpn : pn ∈ blk.phis)
    (hne : isEmptyType pn.ty = false)
    (hfind : findBlock blocks blk.id = some blk)
    (hinc : incomingFor pn pred.id = some iv) (hiv : ¬iv = .undef) :
    (EmitEv.declVar pn.name ∈ printFunctionPhiDecls blocks ∧
     EmitEv.declShadow pn.name ∈ printFunctionPhiDecls blocks) ∧
    EmitEv.copyFromShadow pn.name ∈ printBasicBlockPhiEntry blk ∧
    (pred.term = .brUncond blk.id →
      visitBranchInstEvents gotoNeeded blocks pred =
        printPHICopiesForSuccessor blocks pred.id blk.id ++
          printBranchToBlock gotoNeeded pred.id blk.id ∧
      EmitEv.assignShadow pn.name iv ∈
        printPHICopiesForSuccessor blocks pred.id blk.id) ∧
    (∀ c s0 s1, pred.term = .brCond c s0 s1 →
      (blk.id = s0 ∧ gotoNeeded pred.id s0 = true) ∨
        (blk.id = s1 ∧ (gotoNeeded pred.id s0 = false ∨
                        gotoNeeded pred.id s1 = true)) →
      EmitEv.assignShadow pn.name iv ∈
        visitBranchInstEvents gotoNeeded blocks pred) := by
  refine ⟨⟨?_, ?_⟩, ?_, ?_, ?_⟩
  · refine List.mem_flatten.mpr ⟨_, List.mem_map.mpr ⟨blk, hblk, rfl⟩, ?_⟩
    refine List.mem_flatten.mpr ⟨_, List.mem_map.mpr ⟨pn, hpn, rfl⟩, ?_⟩
    rw [hne]
    simp
  · refine List.mem_flatten.mpr ⟨_, List.mem_map.mpr ⟨blk, hblk, rfl⟩, ?_⟩
    refine List.mem_flatten.mpr ⟨_, List.mem_map.mpr ⟨pn, hpn, rfl⟩, ?_⟩
    rw [hne]
    simp
  · unfold printBasicBlockPhiEntry
    refine List.mem_filterMap.mpr ⟨pn, hpn, ?_⟩
    rw [hne]
    rfl
  · intro hterm
    constructor
    · unfold visitBranchInstEvents
      rw [hterm]
    · exact assignShadow_mem blocks pred.id blk.id blk pn iv hfind hpn hinc
        hiv hne
  · intro c s0 s1 hterm hor
    have hev : visitBranchInstEvents gotoNeeded blocks pred =
        (if gotoNeeded pred.id s0 = true then
          (printPHICopiesForSuccessor blocks pred.id s0 ++
            printBranchToBlock gotoNeeded pred.id s0) ++
          (if gotoNeeded pred.id s1 = true then
            printPHICopiesForSuccessor blocks pred.id s1 ++
              printBranchToBlock gotoNeeded pred.id s1
          else [])
        else
          printPHICopiesForSuccessor blocks pred.id s1 ++
            printBranchToBlock gotoNeeded pred.id s1) := by
      unfold visitBranchInstEvents
      rw [hterm]
    rw [hev]
    rcases hor with ⟨hid, hg0⟩ | ⟨hid, hrest⟩
    · subst hid
      rw [if_pos hg0]
      exact List.mem_append_left _ (List.mem_append_left _
        (assignShadow_mem blocks pred.id blk.id blk pn iv hfind hpn hinc
          hiv hne))
    · subst hid
      by_cases hg0 : gotoNeeded pred.id s0 = true
      · have hg1 : gotoNeeded pred.id blk.id = true := by
          rcases hrest with h | h
          · rw [hg0] at h; cases h
          · exact h
        rw [if_pos hg0, if_pos hg1]
        exact List.mem_append_right _ (List.mem_append_left _
          (assignShadow_mem blocks pred.id blk.id blk pn iv hfind hpn hinc
            hiv hne))
      · rw [if_neg hg0]
        exact List.mem_append_left _
          (assignShadow_mem blocks pred.id blk.id blk pn iv hfind hpn hinc
            hiv hne)

/-- Witness for the amended PHI-shadow theorem on a two-block function whose
entry branches unconditionally to a block with the PHI `x = phi [y, entry]`:
both declarations are emitted, the entry copy is emitted, and the
predecessor's branch code is exactly the shadow assignment followed by the
goto. -/
theorem C4_phi_shadow_amended_witness :
    ((⟨1, [⟨"x", .integer 32, [(.instRef "y", 0)]⟩], .retVoid⟩ : CBlockB) ∈
      ([⟨0, [], .brUncond 1⟩,
        ⟨1, [⟨"x", .integer 32, [(.instRef "y", 0)]⟩], .retVoid⟩] :
        List CBlockB)) ∧
    ((⟨"x", .integer 32, [(.instRef "y", 0)]⟩ : PhiNode) ∈
      ([⟨"x", .integer 32, [(.instRef "y", 0)]⟩] : List PhiNode)) ∧
    ((EmitEv.declVar "x" ∈ printFunctionPhiDecls
        [⟨0, [], .brUncond 1⟩,
         ⟨1, [⟨"x", .integer 32, [(.instRef "y", 0)]⟩], .retVoid⟩] ∧
      EmitEv.declShadow "x" ∈ printFunctionPhiDecls
        [⟨0, [], .brUncond 1⟩,
         ⟨1, [⟨"x", .integer 32, [(.instRef "y", 0)]⟩], .retVoid⟩]) ∧
     EmitEv.copyFromShadow "x" ∈ printBasicBlockPhiEntry
        ⟨1, [⟨"x", .integer 32, [(.instRef "y", 0)]⟩], .retVoid⟩ ∧
     (visitBranchInstEvents (fun _ _ => true)
        [⟨0, [], .brUncond 1⟩,
         ⟨1, [⟨"x", .integer 32, [(.instRef "y", 0)]⟩], .retVoid⟩]
        ⟨0, [], .brUncond 1⟩ =
       printPHICopiesForSuccessor
         [⟨0, [], .brUncond 1⟩,
          ⟨1, [⟨"x", .integer 32, [(.instRef "y", 0)]⟩], .retVoid⟩] 0 1 ++
         printBranchToBlock (fun _ _ => true) 0 1 ∧
      EmitEv.assignShadow "x" (.instRef "y") ∈
        printPHICopiesForSuccessor
          [⟨0, [], .brUncond 1⟩,
           ⟨1, [⟨"x", .integer 32, [(.instRef "y", 0)]⟩], .retVoid⟩] 0 1)) := by
  have H := C4_phi_shadow_amended
    [⟨0, [], .brUncond 1⟩,
     ⟨1, [⟨"x", .integer 32, [(.instRef "y", 0)]⟩], .retVoid⟩]
    (fun _ _ => true)
    ⟨1, [⟨"x", .integer 32, [(.instRef "y", 0)]⟩], .retVoid⟩
    ⟨0, [], .brUncond 1⟩
    ⟨"x", .integer 32, [(.instRef "y", 0)]⟩
    (.instRef "y")
    (List.mem_cons_of_mem _ (List.mem_cons_self _ _))
    (List.mem_cons_self _ _) rfl rfl rfl (by decide)
  exact ⟨List.mem_cons_of_mem _ (List.mem_cons_self _ _),
    List.mem_cons_self _ _, H.1, H.2.1, H.2.2.1 rfl⟩
